import Mathlib

/-!
Verification of the opt.py application manager (opt.py, fileutil.py).

The development shallowly embeds the parts of the program that the
specification talks about:

* the four-state application classification (Application.__init__),
* the InstallTask constructor preconditions,
* the install/update execute content semantics (keep/delete),
* a filesystem model with symlinks, journals and the Remove / Alias /
  Path tasks,
* the container-skipping directory walk of fileutil.py and the
  bin-symlink auto-detection of installOrUpdate.

Machine integers do not occur in the program; paths are modelled either
abstractly (an inductive of join-shaped paths, so that distinct joins of
sane names are distinct values) or as plain strings where the code
manipulates strings.
-/

/-! ## Application state (opt.py, Application.__init__, lines 93-110) -/

/-- The four states of opt.py's ApplicationState enum. -/
inductive ApplicationState
  | NEW
  | INSTALLED
  | ALIAS
  | UNMANAGED
  deriving DecidableEq, Repr

/-- Status of one filesystem location as the Python os.path functions see
it: absent (no entry at all), present (os.path.exists is True), or a
dangling symlink (os.path.islink True, os.path.exists False). -/
inductive PathStatus
  | absent
  | present
  | dangling
  deriving DecidableEq, Repr

/-- os.path.exists: True only for a present entry; a dangling symlink
does not count (see the comment in opt.py's _validateFiles). -/
def pyExists : PathStatus → Bool
  | .present => true
  | _ => false

/-- os.path.islink OR os.path.exists: the parity test the spec claims
the state derivation uses. -/
def existsOrLink : PathStatus → Bool
  | .absent => false
  | _ => true

/-- Application.__init__ state derivation (opt.py lines 98-110):
appDirExists and appInstallDirExists are computed with os.path.exists;
UNMANAGED when they differ, otherwise ALIAS/INSTALLED by the presence of
the alias journal file, NEW when both are absent. -/
def applicationState (appDir installDir : PathStatus) (aliasLog : Bool) :
    ApplicationState :=
  if (pyExists appDir != pyExists installDir) then .UNMANAGED
  else if pyExists appDir then
    (if aliasLog then .ALIAS else .INSTALLED)
  else .NEW

/-- Modelled from the spec wording of claim C1 (refinement comparison
only): the same derivation but with the islink-OR-exists parity test. -/
def claimedStateC1 (appDir installDir : PathStatus) (aliasLog : Bool) :
    ApplicationState :=
  if (existsOrLink appDir != existsOrLink installDir) then .UNMANAGED
  else if existsOrLink appDir then
    (if aliasLog then .ALIAS else .INSTALLED)
  else .NEW

/-! ## InstallTask constructor (opt.py, InstallTask.__init__, lines 162-186) -/

/-- One entry of the keepFiles argument, reduced to the two facts the
constructor checks about it: os.path.exists(e) and app.isAppFile(e). -/
structure KeepCand where
  fileExists : Bool
  isAppFile : Bool
  deriving DecidableEq, Repr

/-- The keep-file loop of InstallTask.__init__ (lines 178-185): the
first entry that does not exist or does not belong to the application
raises; otherwise all entries are accepted. -/
def checkKeepFiles : List KeepCand → Except String Unit
  | [] => .ok ()
  | k :: ks =>
    if !k.fileExists then .error "does not exist"
    else if !k.isAppFile then .error "does not belong to application"
    else checkKeepFiles ks

/-- InstallTask.__init__ validation (lines 163-186), as a pure function
of the state snapshot: the constructor mutates nothing, it only raises
or accepts.  The state checks run before the keep-file checks, in the
source order ALIAS, UNMANAGED, update+NEW, install+INSTALLED. -/
def installTaskInit (state : ApplicationState) (update : Bool)
    (keepFiles : List KeepCand) : Except String Unit :=
  if state = .ALIAS then .error "is an alias, remove it first"
  else if state = .UNMANAGED then .error "not managed, choose another name"
  else if update && (state = .NEW) then .error "does not exist"
  else if !update && (state = .INSTALLED) then .error "already installed"
  else checkKeepFiles keepFiles

theorem checkKeepFiles_ok (ks : List KeepCand)
    (h : ∀ k ∈ ks, k.fileExists = true ∧ k.isAppFile = true) :
    checkKeepFiles ks = .ok () := by
  induction ks with
  | nil => rfl
  | cons k ks ih =>
    have hk := h k (List.mem_cons_self k ks)
    simp [checkKeepFiles, hk.1, hk.2]
    exact ih (fun x hx => h x (List.mem_cons_of_mem k hx))

/-- C1 counterexample: at a pair of two dangling symlinks (no alias
journal) the code classifies NEW, while the claimed islink-OR-exists
parity classification gives INSTALLED; so the claim, as stated, is
false on the code. -/
theorem C1_dangling_pair_counterexample :
    applicationState .dangling .dangling false = .NEW ∧
    claimedStateC1 .dangling .dangling false = .INSTALLED ∧
    applicationState .dangling .dangling false ≠
      claimedStateC1 .dangling .dangling false := by
  decide

/-- C1 (amended): the derived state is exactly NEW when neither appDir
nor installDir exists, UNMANAGED when exactly one exists, ALIAS when
both exist and the alias journal exists, INSTALLED when both exist and
no alias journal exists — where existence is plain os.path.exists, so a
dangling symlink counts as NOT existing: a pair of two dangling
symlinks is classified NEW, and a dangling symlink opposite a real
entry is classified UNMANAGED. -/
theorem C1_state_characterization (a i : PathStatus) (log : Bool) :
    (applicationState a i log = .NEW ↔
      (pyExists a = false ∧ pyExists i = false)) ∧
    (applicationState a i log = .UNMANAGED ↔ pyExists a ≠ pyExists i) ∧
    (applicationState a i log = .ALIAS ↔
      (pyExists a = true ∧ pyExists i = true ∧ log = true)) ∧
    (applicationState a i log = .INSTALLED ↔
      (pyExists a = true ∧ pyExists i = true ∧ log = false)) ∧
    applicationState .dangling .dangling log = .NEW ∧
    applicationState .dangling .present log = .UNMANAGED ∧
    applicationState .present .dangling log = .UNMANAGED := by
  cases a <;> cases i <;> cases log <;> decide

/-- C2: with a keep list whose entries all exist and belong to the
application (in particular the empty list used by install), the
InstallTask constructor raises — before any filesystem mutation, the
embedded constructor being a pure function that mutates nothing —
exactly when the state precondition fails: install (update = false)
raises iff the state is ALIAS, UNMANAGED or INSTALLED (so install
requires NEW), and update raises iff the state is NEW, ALIAS or
UNMANAGED (so update requires INSTALLED); in particular an update on an
ALIAS application is always rejected. -/
theorem C2_install_update_preconditions (state : ApplicationState)
    (keepFiles : List KeepCand)
    (hkeep : ∀ k ∈ keepFiles, k.fileExists = true ∧ k.isAppFile = true) :
    (installTaskInit state false keepFiles = .ok () ↔ state = .NEW) ∧
    (installTaskInit state true keepFiles = .ok () ↔ state = .INSTALLED) ∧
    installTaskInit .ALIAS true keepFiles ≠ .ok () := by
  have hck := checkKeepFiles_ok keepFiles hkeep
  cases state <;> simp [installTaskInit, hck]

/-- C2 witness: the theorem applied at a concrete one-element keep list. -/
theorem C2_install_update_preconditions_witness :
    (installTaskInit .NEW false [⟨true, true⟩] = .ok () ↔
      ApplicationState.NEW = .NEW) ∧
    (installTaskInit .NEW true [⟨true, true⟩] = .ok () ↔
      ApplicationState.NEW = .INSTALLED) ∧
    installTaskInit .ALIAS true [⟨true, true⟩] ≠ .ok () :=
  C2_install_update_preconditions .NEW [⟨true, true⟩] (by decide)

/-! ## Directory trees and container skipping (fileutil.py, lines 42-53) -/

/-- A directory tree: a file with its byte content, or a directory with
a named list of entries (os.listdir order). -/
inductive FSTree
  | leaf (content : String)
  | node (entries : List (String × FSTree))

/-- fileutil.skipContainerDirs: while the directory holds exactly one
entry and that entry is a directory, descend into it; stop as soon as
the listing has another length or the single entry is not a directory. -/
def skipContainerDirs : FSTree → FSTree
  | .leaf c => .leaf c
  | .node [] => .node []
  | .node [(n, .leaf c)] => .node [(n, .leaf c)]
  | .node [(_, .node es)] => skipContainerDirs (.node es)
  | .node (a :: b :: rest) => .node (a :: b :: rest)

/-- True for directories (the argument skipContainerDirs is called on is
always a directory: an install dir or an extraction scratch dir). -/
def isDirT : FSTree → Bool
  | .node _ => true
  | .leaf _ => false

/-- True when a listing holds exactly one entry and it is a directory
(the condition under which the skip loop keeps going). -/
def isSingleDirEntry : List (String × FSTree) → Bool
  | [e] => isDirT e.2
  | _ => false

/-- The loop's stop condition: not a directory holding exactly one entry
that is itself a directory. -/
def isSkipStopped : FSTree → Bool
  | .leaf _ => true
  | .node es => !(isSingleDirEntry es)

/-- Wrap a payload in n redundant single-entry container directories. -/
def wrapContainers (wname : String) : Nat → FSTree → FSTree
  | 0, t => t
  | n + 1, t => .node [(wname, wrapContainers wname n t)]

theorem skipContainerDirs_descend (n : String) (es : List (String × FSTree)) :
    skipContainerDirs (.node [(n, .node es)]) = skipContainerDirs (.node es) := by
  rw [skipContainerDirs]

theorem skipContainerDirs_of_stopped (t : FSTree)
    (h : isSkipStopped t = true) : skipContainerDirs t = t := by
  match t with
  | .leaf _ => rw [skipContainerDirs]
  | .node [] => rw [skipContainerDirs]
  | .node [(_, .leaf _)] => rw [skipContainerDirs]
  | .node [(_, .node _)] => simp [isSkipStopped, isSingleDirEntry, isDirT] at h
  | .node (_ :: _ :: _) => rw [skipContainerDirs]

theorem skipContainerDirs_stopped :
    ∀ t : FSTree, isSkipStopped (skipContainerDirs t) = true
  | .leaf _ => by rw [skipContainerDirs]; rfl
  | .node [] => by rw [skipContainerDirs]; rfl
  | .node [(_, .leaf _)] => by rw [skipContainerDirs]; rfl
  | .node [(n, .node es)] => by
    rw [skipContainerDirs_descend]
    exact skipContainerDirs_stopped (.node es)
  | .node (a :: b :: rest) => by
    rw [skipContainerDirs]
    simp [isSkipStopped, isSingleDirEntry]

theorem isDirT_node (t : FSTree) (h : isDirT t = true) :
    ∃ es, t = .node es := by
  match t with
  | .node es => exact ⟨es, rfl⟩
  | .leaf _ => simp [isDirT] at h

theorem wrapContainers_isDir (w : String) (n : Nat) (t : FSTree)
    (h : isDirT t = true) : isDirT (wrapContainers w n t) = true := by
  cases n with
  | zero => exact h
  | succ n => rfl

/-- C5: container skipping is invariant under adding redundant
single-entry wrapper directories.  For every directory payload t and
every N, skipping containers below N wrappers yields the same final
directory as skipping containers on the payload itself; the function
descends through a single-entry directory chain one wrapper at a time
and its result always satisfies the stop condition (a listing of length
other than one, or a single entry that is not a directory), on which it
is the identity. -/
theorem C5_container_skipping_invariance (w : String) (n : Nat) (t : FSTree)
    (ht : isDirT t = true) :
    skipContainerDirs (wrapContainers w n t) = skipContainerDirs t ∧
    isSkipStopped (skipContainerDirs (wrapContainers w n t)) = true ∧
    (∀ es, skipContainerDirs (FSTree.node [(w, FSTree.node es)]) =
      skipContainerDirs (FSTree.node es)) ∧
    (∀ u, isSkipStopped u = true → skipContainerDirs u = u) := by
  have hmain : skipContainerDirs (wrapContainers w n t) = skipContainerDirs t := by
    induction n with
    | zero => rfl
    | succ n ih =>
      obtain ⟨es, hes⟩ := isDirT_node _ (wrapContainers_isDir w n t ht)
      calc skipContainerDirs (wrapContainers w (n + 1) t)
          = skipContainerDirs (.node [(w, wrapContainers w n t)]) := rfl
        _ = skipContainerDirs (.node [(w, .node es)]) := by rw [hes]
        _ = skipContainerDirs (.node es) := skipContainerDirs_descend w es
        _ = skipContainerDirs (wrapContainers w n t) := by rw [hes]
        _ = skipContainerDirs t := ih
  exact ⟨hmain, hmain ▸ skipContainerDirs_stopped t,
    fun es => skipContainerDirs_descend w es,
    fun u hu => skipContainerDirs_of_stopped u hu⟩

/-- C5 witness: a two-entry payload wrapped in two containers. -/
theorem C5_container_skipping_invariance_witness :
    isDirT (FSTree.node [("bin", .leaf "b"), ("doc", .leaf "d")]) = true ∧
    skipContainerDirs (wrapContainers "w" 2
        (FSTree.node [("bin", .leaf "b"), ("doc", .leaf "d")])) =
      skipContainerDirs (FSTree.node [("bin", .leaf "b"), ("doc", .leaf "d")]) :=
  ⟨rfl, (C5_container_skipping_invariance "w" 2
    (FSTree.node [("bin", .leaf "b"), ("doc", .leaf "d")]) rfl).1⟩

/-! ## Install/update content semantics (opt.py, InstallTask.execute, lines 201-238)

The install directory is a directory tree (FSTree, shared with the
container-skipping section); paths relative to installDir are segment
lists.  The execution steps modelled, in source order: snapshot the
keep files into the scratch staging area preserving their appDir-
relative path (lines 209-212; reading a keep path resolves through the
OLD appDir symlink, whose installDir-relative target chain is oldSkip);
rmtree + makedirs when delete is set (lines 214-216); copy/extract the
input file set into installDir (lines 218-222); retarget the appDir
symlink to skipContainerDirs(installDir) — computed on the tree BEFORE
the copy-back (lines 226-229); finally copy the staging area back into
the root of installDir (line 231). -/

/-- Look up a name in a directory listing (the assoc list of entries). -/
def findEntry : List (String × FSTree) → String → Option FSTree
  | [], _ => none
  | (n, t) :: es, seg => if n = seg then some t else findEntry es seg

def entriesOf : FSTree → List (String × FSTree)
  | .leaf _ => []
  | .node es => es

/-- Read the file content at a segment path of a tree. -/
def lookupTree : FSTree → List String → Option String
  | .leaf c, [] => some c
  | .node _, [] => none
  | t, seg :: rest =>
    match findEntry (entriesOf t) seg with
    | some u => lookupTree u rest
    | none => none

/-- Replace (or append) the entry of a name in a listing. -/
def setEntry : List (String × FSTree) → String → FSTree →
    List (String × FSTree)
  | [], seg, t => [(seg, t)]
  | (n, u) :: es, seg, t =>
    if n = seg then (n, t) :: es else (n, u) :: setEntry es seg t

/-- The subtree at a name, or a fresh empty directory (os.makedirs of
the missing component during a copy). -/
def childAt (t : FSTree) (seg : String) : FSTree :=
  match findEntry (entriesOf t) seg with
  | some u => u
  | none => .node []

/-- Write a file at a segment path, creating directories along the way
and overwriting whatever was there — one file copy of
shutil.copytree(dirs_exist_ok=True); the raise-on-type-clash edge cases
of Python (file where a directory is needed) are modelled as replace. -/
def insertTree : FSTree → List String → String → FSTree
  | _, [], c => .leaf c
  | t, seg :: rest, c =>
    .node (setEntry (entriesOf t) seg (insertTree (childAt t seg) rest c))

/-!
shutil.copytree(src, dst, dirs_exist_ok=True) for whole trees, as used
by the non-destructive copy of the input set over an existing
installDir: upper files overwrite, directories merge recursively,
lower-only entries stay.
-/
mutual
def mergeTree : FSTree → FSTree → FSTree
  | .leaf c, _ => .leaf c
  | .node es, .leaf _ => .node es
  | .node es, .node ls => .node (mergeInto es ls)
def mergeInto : List (String × FSTree) → List (String × FSTree) →
    List (String × FSTree)
  | [], ls => ls
  | (n, t) :: es, ls => mergeInto es (mergeAt ls n t)
def mergeAt : List (String × FSTree) → String → FSTree →
    List (String × FSTree)
  | [], n, t => [(n, t)]
  | (m, u) :: ls, n, t =>
    if m = n then (m, mergeTree t u) :: ls
    else (m, u) :: mergeAt ls n t
end

/-- The chain of single-entry container directory names that
skipContainerDirs descends through: the installDir-relative path of the
appDir symlink target, case-for-case parallel to skipContainerDirs. -/
def skipChain : FSTree → List String
  | .leaf _ => []
  | .node [] => []
  | .node [(_, .leaf _)] => []
  | .node [(n, .node es)] => n :: skipChain (.node es)
  | .node (_ :: _ :: _) => []

/-- Step 1 (lines 209-212): copy each keep entry into the staging area
at its path relative to appDir; the read resolves through the old
appDir symlink, i.e. at oldSkip ++ rel inside installDir.  Entries are
validated to exist at construction; a vanished one would raise, and is
dropped here. -/
def snapshotPhase (d : FSTree) (oldSkip : List String)
    (keep : List (List String)) : List (List String × String) :=
  keep.filterMap (fun rel =>
    (lookupTree d (oldSkip ++ rel)).map (fun c => (rel, c)))

/-- Step 5 (line 231): copy the staging area back over installDir,
writing each snapshotted file at its relative path under the installDir
ROOT. -/
def restorePhase (snap : List (List String × String)) (t : FSTree) :
    FSTree :=
  snap.foldl (fun acc e => insertTree acc e.1 e.2) t

/-- Result of InstallTask.execute: the final installDir tree and the
installDir-relative target chain of the recreated appDir symlink. -/
structure InstallResult where
  instTree : FSTree
  linkSkip : List String

/-- InstallTask.execute (lines 206-231) in source order: snapshot from
the pre-state, delete-or-keep the old tree, copy the input set over it,
compute the appDir symlink target by container skipping on the tree AT
THIS POINT, and only then restore the staging area. -/
def installExecuteFx (d : FSTree) (oldSkip : List String)
    (keep : List (List String)) (inp : FSTree) (delete : Bool) :
    InstallResult :=
  let snap := snapshotPhase d oldSkip keep
  let afterCopy := if delete then inp else mergeTree inp d
  let newSkip := skipChain afterCopy
  let final := restorePhase snap afterCopy
  { instTree := final, linkSkip := newSkip }

theorem skipChain_lookup : ∀ (t : FSTree) (rel : List String),
    lookupTree t (skipChain t ++ rel) = lookupTree (skipContainerDirs t) rel
  | .leaf c, rel => by rw [skipChain, skipContainerDirs]; exact rfl
  | .node [], rel => by rw [skipChain, skipContainerDirs]; exact rfl
  | .node [(n, .leaf c)], rel => by
    rw [skipChain, skipContainerDirs]; exact rfl
  | .node [(n, .node es)], rel => by
    rw [skipChain, skipContainerDirs]
    show lookupTree (.node [(n, .node es)])
      (n :: (skipChain (.node es) ++ rel)) = _
    simp only [lookupTree, entriesOf, findEntry, if_pos rfl]
    exact skipChain_lookup (.node es) rel
  | .node (a :: b :: rest), rel => by
    rw [skipChain, skipContainerDirs]; exact rfl

theorem installExecuteFx_linkSkip (d : FSTree) (oldSkip : List String)
    (keep : List (List String)) (inp : FSTree) (delete : Bool) :
    (installExecuteFx d oldSkip keep inp delete).linkSkip =
      skipChain (if delete then inp else mergeTree inp d) := rfl

inductive OPath
  | appDir (name : String)
  | installDir (name : String)
  | logFile (name : String) (cmd : String)
  | binFile (link : String)
  | extPath (s : String)
  deriving DecidableEq, Repr

inductive FEntry
  | dirE
  | fileE (lines : List OPath)
  | linkE (target : OPath)
  deriving DecidableEq, Repr

def FS := OPath → Option FEntry

/-- The kernel's symlink-following bound (MAXSYMLINKS). -/
def MAXLINKS : Nat := 40

/-- Follow symlinks with bounded fuel: os.path.exists semantics.  A
missing entry or an over-long chain resolves to False, any non-link
entry to True. -/
def resolves (fs : FS) : Nat → OPath → Bool
  | 0, _ => false
  | fuel + 1, p =>
    match fs p with
    | none => false
    | some (.linkE t) => resolves fs fuel t
    | some _ => true

/-- os.path.exists on the modelled filesystem. -/
def fsExists (fs : FS) (p : OPath) : Bool :=
  resolves fs MAXLINKS p

/-- os.path.islink on the modelled filesystem. -/
def isLinkFS (fs : FS) (p : OPath) : Bool :=
  match fs p with
  | some (.linkE _) => true
  | _ => false

/-- The PathStatus of a location in the modelled filesystem. -/
def statusOf (fs : FS) (p : OPath) : PathStatus :=
  if fsExists fs p then .present
  else if isLinkFS fs p then .dangling
  else .absent

/-- Application.__init__ state resolution run against the modelled
filesystem: os.path.exists on appDir, installDir and the alias journal
file. -/
def appStateFS (fs : FS) (name : String) : ApplicationState :=
  applicationState (statusOf fs (.appDir name)) (statusOf fs (.installDir name))
    (fsExists fs (.logFile name "alias"))

/-- Application.readLogFile (opt.py lines 118-123): empty when the
journal file does not exist, otherwise its lines, one path per line. -/
def readLogFileFS (fs : FS) (name cmd : String) : List OPath :=
  if fsExists fs (.logFile name cmd) then
    match fs (.logFile name cmd) with
    | some (.fileE ls) => ls
    | _ => []
  else []

/-- The lines of a file entry (splitlines of its content). -/
def readLines (fs : FS) (p : OPath) : List OPath :=
  match fs p with
  | some (.fileE ls) => ls
  | _ => []

/-- opt.py _validateFiles (lines 567-579), existing side: iterate the
set of the given paths (modelled as dedup; python's set order is
unspecified) and keep those for which os.path.exists holds, or that are
dangling symlinks when brokenLinks is set.  The paths of a journal are
absolute already, so os.path.abspath is the identity here. -/
def validateFilesFS (fs : FS) (files : List OPath) (brokenLinks : Bool) :
    List OPath :=
  files.dedup.filter (fun p => fsExists fs p || (brokenLinks && isLinkFS fs p))

theorem resolves_none (fs : FS) (n : Nat) (p : OPath) (h : fs p = none) :
    resolves fs n p = false := by
  cases n <;> simp [resolves, h]

theorem resolves_link (fs : FS) (n : Nat) (p t : OPath)
    (h : fs p = some (.linkE t)) :
    resolves fs (n + 1) p = resolves fs n t := by
  simp [resolves, h]

theorem resolves_dir (fs : FS) (n : Nat) (p : OPath) (h : fs p = some .dirE) :
    resolves fs (n + 1) p = true := by
  simp [resolves, h]

theorem resolves_file (fs : FS) (n : Nat) (p : OPath) (ls : List OPath)
    (h : fs p = some (.fileE ls)) :
    resolves fs (n + 1) p = true := by
  simp [resolves, h]

theorem fsExists_none (fs : FS) (p : OPath) (h : fs p = none) :
    fsExists fs p = false :=
  resolves_none fs MAXLINKS p h

theorem fsExists_dir (fs : FS) (p : OPath) (h : fs p = some .dirE) :
    fsExists fs p = true :=
  resolves_dir fs (MAXLINKS - 1) p h

theorem fsExists_file (fs : FS) (p : OPath) (ls : List OPath)
    (h : fs p = some (.fileE ls)) : fsExists fs p = true :=
  resolves_file fs (MAXLINKS - 1) p ls h

theorem entry_none_of_invisible (fs : FS) (p : OPath)
    (h1 : fsExists fs p = false) (h2 : isLinkFS fs p = false) :
    fs p = none := by
  match he : fs p with
  | none => rfl
  | some .dirE => rw [fsExists_dir fs p he] at h1; cases h1
  | some (.fileE ls) => rw [fsExists_file fs p ls he] at h1; cases h1
  | some (.linkE t) => simp [isLinkFS, he] at h2

theorem statusOf_none (fs : FS) (p : OPath) (h : fs p = none) :
    statusOf fs p = .absent := by
  simp [statusOf, fsExists_none fs p h, isLinkFS, h]

theorem pyExists_statusOf (fs : FS) (p : OPath) :
    pyExists (statusOf fs p) = fsExists fs p := by
  unfold statusOf
  by_cases h : fsExists fs p = true
  · simp [h, pyExists]
  · simp [Bool.not_eq_true] at h
    by_cases h2 : isLinkFS fs p = true <;> simp [h, h2, pyExists]

/-- C8: reading a journal back through _validateFiles (as every read
site does: RemoveTask construction and printDetails) returns the
journaled paths with duplicate lines removed — the result has no
duplicates and a path is in it exactly when it is a journal line — and
filters out every path that no longer exists, keeping a dangling
symlink only when the broken-links read mode is set. -/
theorem C8_journal_readback (fs : FS) (name cmd : String)
    (brokenLinks : Bool) (p : OPath) :
    (validateFilesFS fs (readLogFileFS fs name cmd) brokenLinks).Nodup ∧
    (p ∈ validateFilesFS fs (readLogFileFS fs name cmd) brokenLinks ↔
      (p ∈ readLogFileFS fs name cmd ∧
        (fsExists fs p = true ∨
          (brokenLinks = true ∧ isLinkFS fs p = true)))) := by
  constructor
  · exact List.Nodup.filter _ (List.nodup_dedup _)
  · simp [validateFilesFS, List.mem_filter, List.mem_dedup,
      Bool.or_eq_true, Bool.and_eq_true]

/-! ## RemoveTask (opt.py, lines 345-397) -/

/-- The snapshot a RemoveTask holds after construction: the validated,
still-existing files to delete and the validated journal files to
delete afterwards.  The source sorts both lists; sorting only permutes
them and is not modelled (the deletion result and the files-before-logs
phase order are unaffected). -/
structure RemoveTask where
  appName : String
  files : List OPath
  logFiles : List OPath
  deriving DecidableEq, Repr

/-- The seven journal kinds touched by a default-scope removal, in the
order the source appends them. -/
def removeCmds : List String :=
  ["install", "update", "alias", "autocomplete", "desktop", "menu", "path"]

/-- RemoveTask.__init__ (lines 346-378): validation (UNMANAGED without
force, NEW), then collection of the files and journal files in scope;
default scope (neither desktopOnly nor pathOnly) collects appDir,
installDir and every journal line of all seven kinds.  Python builds
set(files) before validation; dedup plays that role. -/
def mkRemoveTask (fs : FS) (name : String)
    (desktopOnly pathOnly force : Bool) : Except String RemoveTask :=
  if !force && (appStateFS fs name = .UNMANAGED) then
    .error "is not managed by opt.py"
  else if appStateFS fs name = .NEW then .error "does not exist"
  else
    let removeAll := !desktopOnly && !pathOnly
    let files0 :=
      (if removeAll then
        [OPath.appDir name, OPath.installDir name]
          ++ readLogFileFS fs name "install" ++ readLogFileFS fs name "update"
          ++ readLogFileFS fs name "alias"
          ++ readLogFileFS fs name "autocomplete"
       else []) ++
      (if removeAll || desktopOnly then
        readLogFileFS fs name "desktop" ++ readLogFileFS fs name "menu"
       else []) ++
      (if removeAll || pathOnly then readLogFileFS fs name "path" else [])
    let logs0 :=
      (if removeAll then
        [OPath.logFile name "install", OPath.logFile name "update",
         OPath.logFile name "alias", OPath.logFile name "autocomplete"]
       else []) ++
      (if removeAll || desktopOnly then
        [OPath.logFile name "desktop", OPath.logFile name "menu"] else []) ++
      (if removeAll || pathOnly then [OPath.logFile name "path"] else [])
    .ok { appName := name,
          files := validateFilesFS fs files0 true,
          logFiles := validateFilesFS fs logs0 true }

/-- Deleting one path: os.unlink for a symlink, shutil.rmtree for a
directory, os.remove for a file — each removes the entry at the path
(removal of a deleted directory's children is not consulted by any
property proved here). -/
def deletePath (fs : FS) (p : OPath) : FS :=
  fun q => if q = p then none else fs q

def deleteAll (fs : FS) (ps : List OPath) : FS :=
  ps.foldl deletePath fs

/-- RemoveTask.execute (lines 388-397): delete every collected file,
then delete the journal files. -/
def removeExecute (fs : FS) (t : RemoveTask) : FS :=
  deleteAll (deleteAll fs t.files) t.logFiles

/-- The sequence of deletions RemoveTask.execute performs, in source
order: one action per collected file, then one per journal file. -/
inductive RmAct
  | delPath (p : OPath)
  | delLog (p : OPath)
  deriving DecidableEq, Repr

def removeTrace (t : RemoveTask) : List RmAct :=
  t.files.map RmAct.delPath ++ t.logFiles.map RmAct.delLog

theorem deleteAll_apply (fs : FS) (ps : List OPath) (q : OPath) :
    deleteAll fs ps q = if q ∈ ps then none else fs q := by
  induction ps generalizing fs with
  | nil => simp [deleteAll]
  | cons p ps ih =>
    have hstep : deleteAll fs (p :: ps) = deleteAll (deletePath fs p) ps := rfl
    rw [hstep, ih]
    by_cases hq : q ∈ ps
    · simp [hq]
    · by_cases hqp : q = p <;> simp [hq, hqp, deletePath]

theorem removeExecute_apply (fs : FS) (t : RemoveTask) (q : OPath) :
    removeExecute fs t q =
      if q ∈ t.files ∨ q ∈ t.logFiles then none else fs q := by
  unfold removeExecute
  rw [deleteAll_apply, deleteAll_apply]
  by_cases h1 : q ∈ t.logFiles
  · simp [h1]
  · by_cases h2 : q ∈ t.files <;> simp [h1, h2]

theorem removeTrace_order (t : RemoveTask) (i j : Nat)
    (hi : i < (removeTrace t).length) (hj : j < (removeTrace t).length)
    (p q : OPath)
    (hip : (removeTrace t).get ⟨i, hi⟩ = .delPath p)
    (hjq : (removeTrace t).get ⟨j, hj⟩ = .delLog q) :
    i < j := by
  unfold removeTrace at *
  by_cases hif : i < (t.files.map RmAct.delPath).length
  · by_cases hjf : j < (t.files.map RmAct.delPath).length
    · exfalso
      rw [List.get_eq_getElem, List.getElem_append_left hjf] at hjq
      rw [List.getElem_map] at hjq
      cases hjq
    · push_neg at hjf
      simp [List.length_map] at hif hjf
      omega
  · exfalso
    push_neg at hif
    rw [List.get_eq_getElem, List.getElem_append_right hif] at hip
    rw [List.getElem_map] at hip
    cases hip

theorem applicationState_installed_exists (a i : PathStatus) (b : Bool)
    (h : applicationState a i b = .INSTALLED) :
    pyExists a = true ∧ pyExists i = true := by
  cases a <;> cases i <;> cases b <;> revert h <;> decide

theorem mem_validateFiles (fs : FS) (files : List OPath) (b : Bool)
    (p : OPath) :
    p ∈ validateFilesFS fs files b ↔
      p ∈ files ∧ (fsExists fs p || (b && isLinkFS fs p)) = true := by
  simp [validateFilesFS, List.mem_filter, List.mem_dedup]

theorem validate_pred_of_entry (fs : FS) (p : OPath) (e : FEntry)
    (h : fs p = some e) :
    (fsExists fs p || (true && isLinkFS fs p)) = true := by
  match e with
  | .dirE => simp [fsExists_dir fs p h]
  | .fileE ls => simp [fsExists_file fs p ls h]
  | .linkE t => simp [isLinkFS, h]
/-- C4: on an INSTALLED application, the default-scope RemoveTask
deletes appDir, installDir, every path recorded in any of the
application's journals (of all seven operation kinds) and the journal
files themselves; the deletion trace performs every journaled-path
deletion strictly before every journal-file deletion; and resolving the
application state afterwards yields NEW. -/
theorem C4_remove_installed_full (fs : FS) (name : String) (t : RemoveTask)
    (hstate : appStateFS fs name = .INSTALLED)
    (ht : mkRemoveTask fs name false false false = .ok t) :
    removeExecute fs t (.appDir name) = none ∧
    removeExecute fs t (.installDir name) = none ∧
    (∀ c ∈ removeCmds, ∀ p ∈ readLogFileFS fs name c,
      removeExecute fs t p = none) ∧
    (∀ c ∈ removeCmds, removeExecute fs t (.logFile name c) = none) ∧
    appStateFS (removeExecute fs t) name = .NEW ∧
    (∀ (i j : Nat) (hi : i < (removeTrace t).length)
      (hj : j < (removeTrace t).length) (p q : OPath),
      (removeTrace t).get ⟨i, hi⟩ = .delPath p →
      (removeTrace t).get ⟨j, hj⟩ = .delLog q → i < j) := by
  have hex := applicationState_installed_exists _ _ _ hstate
  rw [pyExists_statusOf, pyExists_statusOf] at hex
  have hexa : fsExists fs (.appDir name) = true := hex.1
  have hexi : fsExists fs (.installDir name) = true := hex.2
  have hstU : ¬(appStateFS fs name = .UNMANAGED) := by rw [hstate]; decide
  have hstN : ¬(appStateFS fs name = .NEW) := by rw [hstate]; decide
  have hmk : mkRemoveTask fs name false false false = .ok
      { appName := name,
        files := validateFilesFS fs
          (([OPath.appDir name, OPath.installDir name]
              ++ readLogFileFS fs name "install"
              ++ readLogFileFS fs name "update"
              ++ readLogFileFS fs name "alias"
              ++ readLogFileFS fs name "autocomplete"
            ++ (readLogFileFS fs name "desktop" ++ readLogFileFS fs name "menu"))
            ++ readLogFileFS fs name "path") true,
        logFiles := validateFilesFS fs
          (([OPath.logFile name "install", OPath.logFile name "update",
            OPath.logFile name "alias", OPath.logFile name "autocomplete"]
            ++ [OPath.logFile name "desktop", OPath.logFile name "menu"])
            ++ [OPath.logFile name "path"]) true } := by
    rw [mkRemoveTask, if_neg (by simp [hstU]), if_neg hstN]
    rfl
  rw [hmk] at ht
  injection ht with ht
  rw [← ht]
  set F := validateFilesFS fs
      (([OPath.appDir name, OPath.installDir name]
          ++ readLogFileFS fs name "install"
          ++ readLogFileFS fs name "update"
          ++ readLogFileFS fs name "alias"
          ++ readLogFileFS fs name "autocomplete"
        ++ (readLogFileFS fs name "desktop" ++ readLogFileFS fs name "menu"))
        ++ readLogFileFS fs name "path") true with hF
  set L := validateFilesFS fs
      (([OPath.logFile name "install", OPath.logFile name "update",
        OPath.logFile name "alias", OPath.logFile name "autocomplete"]
        ++ [OPath.logFile name "desktop", OPath.logFile name "menu"])
        ++ [OPath.logFile name "path"]) true with hL
  have hmemApp : OPath.appDir name ∈ F := by
    rw [hF, mem_validateFiles]
    exact ⟨by simp, by simp [hexa]⟩
  have hmemInst : OPath.installDir name ∈ F := by
    rw [hF, mem_validateFiles]
    exact ⟨by simp, by simp [hexi]⟩
  have happly : ∀ q : OPath,
      removeExecute fs { appName := name, files := F, logFiles := L } q =
        if q ∈ F ∨ q ∈ L then none else fs q := fun q =>
    removeExecute_apply fs _ q
  have hdelApp :
      removeExecute fs { appName := name, files := F, logFiles := L }
        (.appDir name) = none := by
    rw [happly]; simp [hmemApp]
  have hdelInst :
      removeExecute fs { appName := name, files := F, logFiles := L }
        (.installDir name) = none := by
    rw [happly]; simp [hmemInst]
  refine ⟨hdelApp, hdelInst, ?_, ?_, ?_, ?_⟩
  · intro c hc p hp
    by_cases hvis : (fsExists fs p || (true && isLinkFS fs p)) = true
    · have hmem : p ∈ F := by
        rw [hF, mem_validateFiles]
        refine ⟨?_, hvis⟩
        simp only [removeCmds, List.mem_cons, List.not_mem_nil, or_false] at hc
        rcases hc with rfl | rfl | rfl | rfl | rfl | rfl | rfl <;>
          simp [List.mem_append, hp]
      rw [happly]; simp [hmem]
    · have h1 : fsExists fs p = false := by
        cases hfe : fsExists fs p
        · rfl
        · exact absurd (by simp [hfe]) hvis
      have h2 : isLinkFS fs p = false := by
        cases hle : isLinkFS fs p
        · rfl
        · exact absurd (by simp [hle]) hvis
      have hnone := entry_none_of_invisible fs p h1 h2
      rw [happly]
      by_cases hmem : p ∈ F ∨ p ∈ L <;> simp [hmem, hnone]
  · intro c hc
    match he : fs (.logFile name c) with
    | none =>
      rw [happly]
      by_cases hmem : OPath.logFile name c ∈ F ∨ OPath.logFile name c ∈ L <;>
        simp [hmem, he]
    | some e =>
      have hmem : OPath.logFile name c ∈ L := by
        rw [hL, mem_validateFiles]
        refine ⟨?_, validate_pred_of_entry fs _ e he⟩
        simp only [removeCmds, List.mem_cons, List.not_mem_nil, or_false] at hc
        rcases hc with rfl | rfl | rfl | rfl | rfl | rfl | rfl <;> simp
      rw [happly]; simp [hmem]
  · have hsa := statusOf_none _ _ hdelApp
    have hsi := statusOf_none _ _ hdelInst
    rw [appStateFS, hsa, hsi]
    rfl
  · exact fun i j hi hj p q hp hq =>
      removeTrace_order _ i j hi hj p q hp hq

/-- A concrete installed application for exercising RemoveTask: appDir
is a symlink to installDir, installDir a directory, the install journal
records one extra path. -/
def fsRemoveW : FS := fun p =>
  if p = OPath.appDir "app" then some (.linkE (.installDir "app"))
  else if p = OPath.installDir "app" then some .dirE
  else if p = OPath.logFile "app" "install" then
    some (.fileE [OPath.extPath "/usr/local/bin/x"])
  else if p = OPath.extPath "/usr/local/bin/x" then some (.fileE [])
  else none

def rtaskW : RemoveTask :=
  { appName := "app",
    files := [OPath.appDir "app", OPath.installDir "app",
      OPath.extPath "/usr/local/bin/x"],
    logFiles := [OPath.logFile "app" "install"] }

/-- C4 witness: the removal theorem applied to the concrete filesystem. -/
theorem C4_remove_installed_full_witness :
    appStateFS fsRemoveW "app" = .INSTALLED ∧
    mkRemoveTask fsRemoveW "app" false false false = .ok rtaskW ∧
    removeExecute fsRemoveW rtaskW (.appDir "app") = none ∧
    appStateFS (removeExecute fsRemoveW rtaskW) "app" = .NEW :=
  ⟨rfl, rfl,
   (C4_remove_installed_full fsRemoveW "app" rtaskW rfl rfl).1,
   (C4_remove_installed_full fsRemoveW "app" rtaskW rfl rfl).2.2.2.2.1⟩

/-! ## AliasTask (opt.py, lines 522-552) and PathTask (lines 290-328) -/

/-- Opening a journal with mode a: creates an empty file when the path
holds nothing, leaves an existing entry alone. -/
def touchLog (fs : FS) (p : OPath) : FS :=
  fun q => if q = p then
    some (match fs p with
      | some e => e
      | none => .fileE [])
  else fs q

/-- log.write of one path line: append to the file entry at p (the
journal was opened with mode a beforehand, so a missing entry appends
to the empty file). -/
def appendLogLine (fs : FS) (p : OPath) (line : OPath) : FS :=
  fun q => if q = p then some (.fileE (readLines fs p ++ [line])) else fs q

/-- os.symlink(target, dst): raises FileExistsError when anything —
even a dangling symlink — occupies dst; otherwise creates the link. -/
def symlinkNew (fs : FS) (target dst : OPath) : Option FS :=
  match fs dst with
  | some _ => none
  | none => some (fun q => if q = dst then some (.linkE target) else fs q)

/-- AliasTask.execute (opt.py lines 541-552): open the alias journal,
unlink installDir only when it is a symlink, create the symlink
installDir -> targetApp.appDir (raising when installDir still exists),
journal it, and when os.path.exists(appDir) is False also create
appDir -> installDir and journal that.  The second component is True
when the execution raised; the first is the filesystem at the point of
return or raise. -/
def aliasFinish (fs3 : FS) (aliasName : String) : FS × Bool :=
  if fsExists fs3 (.appDir aliasName) then (fs3, false)
  else
    match symlinkNew fs3 (.installDir aliasName) (.appDir aliasName) with
    | none => (fs3, true)
    | some fs4 =>
      (appendLogLine fs4 (.logFile aliasName "alias") (.appDir aliasName),
        false)

def aliasExecute (fs : FS) (aliasName targetName : String) : FS × Bool :=
  let fs0 := touchLog fs (.logFile aliasName "alias")
  let fs1 := if isLinkFS fs0 (.installDir aliasName) then
    deletePath fs0 (.installDir aliasName) else fs0
  match symlinkNew fs1 (.appDir targetName) (.installDir aliasName) with
  | none => (fs1, true)
  | some fs2 =>
    aliasFinish
      (appendLogLine fs2 (.logFile aliasName "alias")
        (.installDir aliasName)) aliasName

/-- PathTask.execute (opt.py lines 310-328): open the path journal,
return with a warning when the source is gone or not executable,
unlink the bin destination only when it is a symlink, create the
symlink dst -> src (raising when dst still exists), and journal dst.
The executable bit is not part of FEntry, so os.access(src, X_OK) is
the supplied predicate isExec. -/
inductive PathOutcome
  | completed
  | warned
  | raised
  deriving DecidableEq, Repr

def pathExecute (fs : FS) (isExec : OPath → Bool) (name : String)
    (src : OPath) (link : String) : FS × PathOutcome :=
  let logp := OPath.logFile name "path"
  let dst := OPath.binFile link
  let fs0 := touchLog fs logp
  if !(fsExists fs0 src) then (fs0, .warned)
  else if !(isExec src) then (fs0, .warned)
  else
    let fs1 := if isLinkFS fs0 dst then deletePath fs0 dst else fs0
    match symlinkNew fs1 src dst with
    | none => (fs1, .raised)
    | some fs2 => (appendLogLine fs2 logp dst, .completed)

theorem touchLog_ne (fs : FS) (p q : OPath) (h : q ≠ p) :
    touchLog fs p q = fs q := by
  simp [touchLog, h]

theorem touchLog_fileE (fs : FS) (p q : OPath) (ls : List OPath)
    (h : fs q = some (.fileE ls)) :
    touchLog fs p q = some (.fileE ls) := by
  by_cases hq : q = p
  · subst hq; simp [touchLog, h]
  · simp [touchLog, hq, h]

theorem readLines_touchLog (fs : FS) (p : OPath) :
    readLines (touchLog fs p) p = readLines fs p := by
  match he : fs p with
  | none => simp [readLines, touchLog, he]
  | some e => simp [readLines, touchLog, he]

theorem appendLogLine_ne (fs : FS) (p line q : OPath) (h : q ≠ p) :
    appendLogLine fs p line q = fs q := by
  simp [appendLogLine, h]

theorem deletePath_ne (fs : FS) (p q : OPath) (h : q ≠ p) :
    deletePath fs p q = fs q := by
  simp [deletePath, h]

theorem deletePath_eq (fs : FS) (p : OPath) : deletePath fs p p = none := by
  simp [deletePath]

theorem symlinkNew_ok (fs : FS) (target dst : OPath) (h : fs dst = none) :
    symlinkNew fs target dst =
      some (fun q => if q = dst then some (.linkE target) else fs q) := by
  simp [symlinkNew, h]

theorem symlinkNew_fail (fs : FS) (target dst : OPath) (e : FEntry)
    (h : fs dst = some e) : symlinkNew fs target dst = none := by
  simp [symlinkNew, h]

theorem readLines_appendLogLine (fs : FS) (p line : OPath) :
    readLines (appendLogLine fs p line) p = readLines fs p ++ [line] := by
  simp [readLines, appendLogLine]

theorem readLines_of_eq (f g : FS) (p : OPath) (h : f p = g p) :
    readLines f p = readLines g p := by
  simp [readLines, h]

theorem aliasFinish_preserves (fs3 : FS) (b : String) (q : OPath)
    (h1 : q ≠ OPath.appDir b) (h2 : q ≠ OPath.logFile b "alias") :
    (aliasFinish fs3 b).1 q = fs3 q := by
  unfold aliasFinish
  by_cases hex : fsExists fs3 (.appDir b) = true
  · simp [hex]
  · rw [if_neg hex]
    match hm : fs3 (.appDir b) with
    | some e => rw [symlinkNew_fail fs3 _ _ e hm]
    | none =>
      simp only [symlinkNew_ok fs3 _ _ hm]
      rw [appendLogLine_ne _ _ _ _ h2]
      simp [h1]

theorem aliasFinish_logline (fs3 : FS) (b : String) (line : OPath)
    (h : line ∈ readLines fs3 (.logFile b "alias")) :
    line ∈ readLines (aliasFinish fs3 b).1 (.logFile b "alias") := by
  unfold aliasFinish
  by_cases hex : fsExists fs3 (.appDir b) = true
  · simpa [hex]
  · rw [if_neg hex]
    match hm : fs3 (.appDir b) with
    | some e => rw [symlinkNew_fail fs3 _ _ e hm]; exact h
    | none =>
      simp only [symlinkNew_ok fs3 _ _ hm]
      rw [readLines_appendLogLine]
      refine List.mem_append_left _ ?_
      rw [readLines_of_eq _ fs3 _ (by simp)]
      exact h

/-- A tampered ALIAS application whose installDir is a real directory
rather than a symlink: appDir and installDir exist, the alias journal
exists, so the state is ALIAS and the AliasTask constructor accepts it. -/
def fsAliasCtr : FS := fun p =>
  if p = OPath.appDir "b" then some (.linkE (.installDir "b"))
  else if p = OPath.installDir "b" then some .dirE
  else if p = OPath.logFile "b" "alias" then
    some (.fileE [OPath.installDir "b"])
  else if p = OPath.appDir "a" then some (.linkE (.installDir "a"))
  else if p = OPath.installDir "a" then some .dirE
  else none

/-- C7 counterexample: on an ALIAS application whose installDir is a
real directory, AliasTask.execute does not remove it — there is no
recursive-delete branch in the code (opt.py lines 544-546 only unlink a
symlink) — and the symlink creation raises FileExistsError with the
directory still in place, contradicting the claimed unconditional
removal and fresh-symlink creation. -/
theorem C7_nonsymlink_counterexample :
    appStateFS fsAliasCtr "b" = .ALIAS ∧
    (aliasExecute fsAliasCtr "b" "a").2 = true ∧
    (aliasExecute fsAliasCtr "b" "a").1 (.installDir "b") = some .dirE :=
  ⟨rfl, rfl, rfl⟩

/-- C7 (amended): when the alias application's installDir exists as a
symlink it is unlinked and a fresh symlink installDir ->
targetApp.appDir is created and journaled; when it exists as a
non-symlink it is NOT removed — the execution raises FileExistsError at
the symlink creation and the pre-existing entry stays in place. -/
theorem C7_alias_installdir_replacement (fs : FS) (b t : String) (x : OPath)
    (e : FEntry) :
    (fs (.installDir b) = some (.linkE x) →
      ((aliasExecute fs b t).1 (.installDir b) = some (.linkE (.appDir t)) ∧
        OPath.installDir b ∈
          readLines (aliasExecute fs b t).1 (.logFile b "alias"))) ∧
    (fs (.installDir b) = some e → (∀ y, e ≠ .linkE y) →
      ((aliasExecute fs b t).2 = true ∧
        (aliasExecute fs b t).1 (.installDir b) = some e)) := by
  have hne1 : OPath.installDir b ≠ OPath.logFile b "alias" := by simp
  constructor
  · intro hl
    have h0 : touchLog fs (OPath.logFile b "alias") (OPath.installDir b)
        = some (.linkE x) := by rw [touchLog_ne _ _ _ hne1, hl]
    have hlink : isLinkFS (touchLog fs (OPath.logFile b "alias"))
        (OPath.installDir b) = true := by simp [isLinkFS, h0]
    have hdel : deletePath (touchLog fs (OPath.logFile b "alias"))
        (OPath.installDir b) (OPath.installDir b) = none := deletePath_eq _ _
    simp only [aliasExecute, hlink, if_true, symlinkNew_ok _ _ _ hdel]
    constructor
    · rw [aliasFinish_preserves _ _ _ (by simp) hne1]
      rw [appendLogLine_ne _ _ _ _ hne1]
      simp
    · refine aliasFinish_logline _ _ _ ?_
      rw [readLines_appendLogLine]
      simp
  · intro he hnl
    have h0 : touchLog fs (OPath.logFile b "alias") (OPath.installDir b)
        = some e := by rw [touchLog_ne _ _ _ hne1, he]
    have hnolink : isLinkFS (touchLog fs (OPath.logFile b "alias"))
        (OPath.installDir b) = false := by
      cases e with
      | dirE => simp [isLinkFS, h0]
      | fileE ls => simp [isLinkFS, h0]
      | linkE y => exact absurd rfl (hnl y)
    simp only [aliasExecute, hnolink, Bool.false_eq_true, if_false,
      symlinkNew_fail _ _ _ e h0]
    exact ⟨by trivial, h0⟩

/-- An existing alias b -> a, plus an installed application c, for
exercising re-aliasing. -/
def fsAliasW : FS := fun p =>
  if p = OPath.appDir "b" then some (.linkE (.installDir "b"))
  else if p = OPath.installDir "b" then some (.linkE (.appDir "a"))
  else if p = OPath.logFile "b" "alias" then
    some (.fileE [OPath.installDir "b"])
  else if p = OPath.appDir "a" then some (.linkE (.installDir "a"))
  else if p = OPath.installDir "a" then some .dirE
  else if p = OPath.appDir "c" then some (.linkE (.installDir "c"))
  else if p = OPath.installDir "c" then some .dirE
  else none

/-- C7 witness: re-aliasing b from a to c over a symlink installDir. -/
theorem C7_alias_installdir_replacement_witness :
    fsAliasW (.installDir "b") = some (.linkE (.appDir "a")) ∧
    (aliasExecute fsAliasW "b" "c").1 (.installDir "b") =
      some (.linkE (.appDir "c")) ∧
    OPath.installDir "b" ∈
      readLines (aliasExecute fsAliasW "b" "c").1 (.logFile "b" "alias") :=
  ⟨rfl,
   ((C7_alias_installdir_replacement fsAliasW "b" "c"
      (.appDir "a") .dirE).1 rfl).1,
   ((C7_alias_installdir_replacement fsAliasW "b" "c"
      (.appDir "a") .dirE).1 rfl).2⟩

theorem aliasExecute_closed (fs : FS) (b t : String)
    (hInst : fs (.installDir b) = none ∨
      ∃ x, fs (.installDir b) = some (.linkE x)) :
    ∃ m : FS,
      aliasExecute fs b t = aliasFinish m b ∧
      m (.installDir b) = some (.linkE (.appDir t)) ∧
      (∀ q, q ≠ OPath.installDir b → q ≠ OPath.logFile b "alias" →
        m q = fs q) := by
  have hne1 : OPath.installDir b ≠ OPath.logFile b "alias" := by simp
  rcases hInst with hnone | ⟨x, hlink⟩
  · have h0 : touchLog fs (OPath.logFile b "alias") (OPath.installDir b)
        = none := by rw [touchLog_ne _ _ _ hne1, hnone]
    have hnl : isLinkFS (touchLog fs (OPath.logFile b "alias"))
        (OPath.installDir b) = false := by simp [isLinkFS, h0]
    refine ⟨appendLogLine
        (fun q => if q = OPath.installDir b then
          some (.linkE (.appDir t))
          else touchLog fs (OPath.logFile b "alias") q)
        (OPath.logFile b "alias") (OPath.installDir b), ?_, ?_, ?_⟩
    · simp only [aliasExecute, hnl, Bool.false_eq_true, if_false,
        symlinkNew_ok _ _ _ h0]
    · rw [appendLogLine_ne _ _ _ _ hne1]; simp
    · intro q hq1 hq2
      rw [appendLogLine_ne _ _ _ _ hq2]
      simp only [if_neg hq1]
      exact touchLog_ne _ _ _ hq2
  · have h0 : touchLog fs (OPath.logFile b "alias") (OPath.installDir b)
        = some (.linkE x) := by rw [touchLog_ne _ _ _ hne1, hlink]
    have hl : isLinkFS (touchLog fs (OPath.logFile b "alias"))
        (OPath.installDir b) = true := by simp [isLinkFS, h0]
    have hdel : deletePath (touchLog fs (OPath.logFile b "alias"))
        (OPath.installDir b) (OPath.installDir b) = none := deletePath_eq _ _
    refine ⟨appendLogLine
        (fun q => if q = OPath.installDir b then some (.linkE (.appDir t))
          else deletePath (touchLog fs (OPath.logFile b "alias"))
            (OPath.installDir b) q)
        (OPath.logFile b "alias") (OPath.installDir b), ?_, ?_, ?_⟩
    · simp only [aliasExecute, hl, if_true, symlinkNew_ok _ _ _ hdel]
    · rw [appendLogLine_ne _ _ _ _ hne1]; simp
    · intro q hq1 hq2
      rw [appendLogLine_ne _ _ _ _ hq2]
      simp only [if_neg hq1]
      rw [deletePath_ne _ _ _ hq1]
      exact touchLog_ne _ _ _ hq2

theorem aliasFinish_exists_case (fs3 : FS) (b : String)
    (h : fsExists fs3 (.appDir b) = true) :
    aliasFinish fs3 b = (fs3, false) := by
  simp [aliasFinish, h]

theorem aliasFinish_create_case (fs3 : FS) (b : String)
    (hnex : fsExists fs3 (.appDir b) = false)
    (hnone : fs3 (.appDir b) = none) :
    aliasFinish fs3 b =
      (appendLogLine (fun q => if q = OPath.appDir b then
          some (.linkE (.installDir b)) else fs3 q)
        (.logFile b "alias") (.appDir b), false) := by
  rw [aliasFinish, if_neg (by simp [hnex]), symlinkNew_ok fs3 _ _ hnone]

/-- C6: re-aliasing is a frame property on the public symlink.  From a
state where applications a and c are installed (appDir a symlink to a
real installDir, likewise c) and b does not exist, aliasing b to a
creates b's appDir symlink (pointing at b's installDir) and sets b's
installDir symlink to a's appDir; re-aliasing b to c then leaves the
entry at b's appDir untouched — it is neither removed nor recreated,
the execution taking the exists(appDir) branch — while b's installDir
symlink target changes from a's appDir to c's appDir.  Both executions
return without raising. -/
theorem C6_realias_frame (fs : FS) (a b c : String)
    (hba : b ≠ a) (hbc : b ≠ c)
    (hbApp : fs (.appDir b) = none)
    (hbInst : fs (.installDir b) = none)
    (haApp : fs (.appDir a) = some (.linkE (.installDir a)))
    (haInst : fs (.installDir a) = some .dirE)
    (hcApp : fs (.appDir c) = some (.linkE (.installDir c)))
    (hcInst : fs (.installDir c) = some .dirE) :
    (aliasExecute fs b a).2 = false ∧
    (aliasExecute fs b a).1 (.appDir b) = some (.linkE (.installDir b)) ∧
    (aliasExecute fs b a).1 (.installDir b) = some (.linkE (.appDir a)) ∧
    (aliasExecute (aliasExecute fs b a).1 b c).2 = false ∧
    (aliasExecute (aliasExecute fs b a).1 b c).1 (.appDir b) =
      (aliasExecute fs b a).1 (.appDir b) ∧
    (aliasExecute (aliasExecute fs b a).1 b c).1 (.installDir b) =
      some (.linkE (.appDir c)) := by
  have hAppInst : OPath.appDir b ≠ OPath.installDir b := by simp
  have hAppLog : OPath.appDir b ≠ OPath.logFile b "alias" := by simp
  have hcAppInst : OPath.appDir c ≠ OPath.installDir b := by simp
  have hcAppLog : OPath.appDir c ≠ OPath.logFile b "alias" := by simp
  have hcAppApp : OPath.appDir c ≠ OPath.appDir b := by
    intro h; exact hbc (OPath.appDir.inj h).symm
  have hcInstInst : OPath.installDir c ≠ OPath.installDir b := by
    intro h; exact hbc (OPath.installDir.inj h).symm
  have hcInstLog : OPath.installDir c ≠ OPath.logFile b "alias" := by simp
  have hcInstApp : OPath.installDir c ≠ OPath.appDir b := by simp
  -- first run: b is NEW, so the appDir symlink is created
  obtain ⟨m1, hrun1, hm1inst, hm1frame⟩ :=
    aliasExecute_closed fs b a (Or.inl hbInst)
  have hm1app : m1 (.appDir b) = none := by
    rw [hm1frame _ hAppInst hAppLog]; exact hbApp
  have hm1nex : fsExists m1 (.appDir b) = false :=
    resolves_none m1 MAXLINKS _ hm1app
  have hfin1 := aliasFinish_create_case m1 b hm1nex hm1app
  have hA : aliasExecute fs b a =
      (appendLogLine (fun q => if q = OPath.appDir b then
          some (.linkE (.installDir b)) else m1 q)
        (.logFile b "alias") (.appDir b), false) := by
    rw [hrun1, hfin1]
  have hA1 : (aliasExecute fs b a).1 =
      appendLogLine (fun q => if q = OPath.appDir b then
          some (.linkE (.installDir b)) else m1 q)
        (.logFile b "alias") (.appDir b) := by rw [hA]
  have hA2 : (aliasExecute fs b a).2 = false := by rw [hA]
  have hAapp : (aliasExecute fs b a).1 (.appDir b) =
      some (.linkE (.installDir b)) := by
    rw [hA1, appendLogLine_ne _ _ _ _ hAppLog]
    simp
  have hAinst : (aliasExecute fs b a).1 (.installDir b) =
      some (.linkE (.appDir a)) := by
    rw [hA1, appendLogLine_ne _ _ _ _ (by simp : OPath.installDir b ≠
      OPath.logFile b "alias")]
    rw [if_neg hAppInst.symm]
    exact hm1inst
  have hAframe : ∀ q, q ≠ OPath.appDir b → q ≠ OPath.installDir b →
      q ≠ OPath.logFile b "alias" → (aliasExecute fs b a).1 q = fs q := by
    intro q h1 h2 h3
    rw [hA1, appendLogLine_ne _ _ _ _ h3]
    simp only [if_neg h1]
    exact hm1frame q h2 h3
  -- second run: b's installDir is now a symlink, appDir survives
  obtain ⟨m2, hrun2, hm2inst, hm2frame⟩ :=
    aliasExecute_closed (aliasExecute fs b a).1 b c
      (Or.inr ⟨.appDir a, hAinst⟩)
  have hm2app : m2 (.appDir b) = some (.linkE (.installDir b)) := by
    rw [hm2frame _ hAppInst hAppLog]; exact hAapp
  have hm2cApp : m2 (.appDir c) = some (.linkE (.installDir c)) := by
    rw [hm2frame _ hcAppInst hcAppLog]
    rw [hAframe _ hcAppApp hcAppInst hcAppLog]
    exact hcApp
  have hm2cInst : m2 (.installDir c) = some .dirE := by
    rw [hm2frame _ hcInstInst hcInstLog]
    rw [hAframe _ hcInstApp hcInstInst hcInstLog]
    exact hcInst
  have hm2ex : fsExists m2 (.appDir b) = true := by
    show resolves m2 MAXLINKS (.appDir b) = true
    rw [show MAXLINKS = 39 + 1 from rfl, resolves_link _ _ _ _ hm2app,
      show (39 : Nat) = 38 + 1 from rfl, resolves_link _ _ _ _ hm2inst,
      show (38 : Nat) = 37 + 1 from rfl, resolves_link _ _ _ _ hm2cApp,
      show (37 : Nat) = 36 + 1 from rfl]
    exact resolves_dir _ 36 _ hm2cInst
  have hB : aliasExecute (aliasExecute fs b a).1 b c = (m2, false) := by
    rw [hrun2, aliasFinish_exists_case m2 b hm2ex]
  have hB1 : (aliasExecute (aliasExecute fs b a).1 b c).1 = m2 := by rw [hB]
  have hB2 : (aliasExecute (aliasExecute fs b a).1 b c).2 = false := by
    rw [hB]
  refine ⟨hA2, hAapp, hAinst, hB2, ?_, ?_⟩
  · rw [hB1, hAapp]
    exact hm2app
  · rw [hB1]
    exact hm2inst

/-- Two installed applications a and c; b does not exist yet. -/
def fsC6W : FS := fun p =>
  if p = OPath.appDir "a" then some (.linkE (.installDir "a"))
  else if p = OPath.installDir "a" then some .dirE
  else if p = OPath.appDir "c" then some (.linkE (.installDir "c"))
  else if p = OPath.installDir "c" then some .dirE
  else none

/-- C6 witness: alias b to a, re-alias b to c, on the concrete state. -/
theorem C6_realias_frame_witness :
    (aliasExecute fsC6W "b" "a").1 (.appDir "b") =
      some (.linkE (.installDir "b")) ∧
    (aliasExecute fsC6W "b" "a").1 (.installDir "b") =
      some (.linkE (.appDir "a")) ∧
    (aliasExecute (aliasExecute fsC6W "b" "a").1 "b" "c").1 (.appDir "b") =
      (aliasExecute fsC6W "b" "a").1 (.appDir "b") ∧
    (aliasExecute (aliasExecute fsC6W "b" "a").1 "b" "c").1
      (.installDir "b") = some (.linkE (.appDir "c")) :=
  ⟨(C6_realias_frame fsC6W "a" "b" "c" (by decide) (by decide)
      rfl rfl rfl rfl rfl rfl).2.1,
   (C6_realias_frame fsC6W "a" "b" "c" (by decide) (by decide)
      rfl rfl rfl rfl rfl rfl).2.2.1,
   (C6_realias_frame fsC6W "a" "b" "c" (by decide) (by decide)
      rfl rfl rfl rfl rfl rfl).2.2.2.2.1,
   (C6_realias_frame fsC6W "a" "b" "c" (by decide) (by decide)
      rfl rfl rfl rfl rfl rfl).2.2.2.2.2⟩

/-- C10: during PathTask.execute with a live executable source, only a
symlink already present at the bin destination is unlinked before
linking — when the destination holds a symlink the execution completes,
replacing it with a symlink to the source and appending the destination
to the path journal; when a non-symlink entry occupies the destination
it is not removed, the symlink creation raises, the error propagates
(outcome raised) and the path journal gains no line. -/
theorem C10_path_destination_handling (fs : FS) (isExec : OPath → Bool)
    (name link : String) (src : OPath) (ls : List OPath) (e : FEntry)
    (y : OPath)
    (hsrc : fs src = some (.fileE ls)) (hx : isExec src = true) :
    (fs (.binFile link) = some (.linkE y) →
      ((pathExecute fs isExec name src link).2 = .completed ∧
        (pathExecute fs isExec name src link).1 (.binFile link) =
          some (.linkE src) ∧
        readLines (pathExecute fs isExec name src link).1
            (.logFile name "path") =
          readLines fs (.logFile name "path") ++ [.binFile link])) ∧
    (fs (.binFile link) = some e → (∀ z, e ≠ .linkE z) →
      ((pathExecute fs isExec name src link).2 = .raised ∧
        (pathExecute fs isExec name src link).1 (.binFile link) = some e ∧
        readLines (pathExecute fs isExec name src link).1
            (.logFile name "path") =
          readLines fs (.logFile name "path"))) := by
  have hne : OPath.binFile link ≠ OPath.logFile name "path" := by simp
  have h0src : touchLog fs (OPath.logFile name "path") src
      = some (.fileE ls) := touchLog_fileE fs _ src ls hsrc
  have hfex : fsExists (touchLog fs (OPath.logFile name "path")) src = true :=
    fsExists_file _ _ ls h0src
  constructor
  · intro hl
    have h0dst : touchLog fs (OPath.logFile name "path") (.binFile link)
        = some (.linkE y) := by rw [touchLog_ne _ _ _ hne, hl]
    have hlink : isLinkFS (touchLog fs (OPath.logFile name "path"))
        (.binFile link) = true := by simp [isLinkFS, h0dst]
    have hdel : deletePath (touchLog fs (OPath.logFile name "path"))
        (OPath.binFile link) (OPath.binFile link) = none := deletePath_eq _ _
    simp only [pathExecute, hfex, hx, Bool.not_true, Bool.false_eq_true,
      if_false, hlink, if_true, symlinkNew_ok _ _ _ hdel]
    refine ⟨by trivial, ?_, ?_⟩
    · rw [appendLogLine_ne _ _ _ _ hne]
      simp
    · rw [readLines_appendLogLine,
        readLines_of_eq _ (touchLog fs (OPath.logFile name "path")) _
          (by simp [deletePath]),
        readLines_touchLog]
  · intro he hnl
    have h0dst : touchLog fs (OPath.logFile name "path") (.binFile link)
        = some e := by rw [touchLog_ne _ _ _ hne, he]
    have hnolink : isLinkFS (touchLog fs (OPath.logFile name "path"))
        (.binFile link) = false := by
      cases e with
      | dirE => simp [isLinkFS, h0dst]
      | fileE l2 => simp [isLinkFS, h0dst]
      | linkE z => exact absurd rfl (hnl z)
    simp only [pathExecute, hfex, hx, Bool.not_true, Bool.false_eq_true,
      if_false, hnolink, symlinkNew_fail _ _ _ e h0dst]
    exact ⟨by trivial, h0dst, readLines_touchLog fs _⟩

/-- A bin directory whose entry for the link name is occupied by a
regular file, plus an executable source file, and a variant destination
holding an old symlink. -/
def fsPathW : FS := fun p =>
  if p = OPath.extPath "/opt/app/run" then some (.fileE [])
  else if p = OPath.binFile "run" then some (.fileE [])
  else if p = OPath.binFile "old" then
    some (.linkE (.extPath "/opt/gone/run"))
  else none

/-- C10 witness: a regular file at the destination survives with outcome
raised and an untouched journal; an old symlink destination is replaced. -/
theorem C10_path_destination_handling_witness :
    ((pathExecute fsPathW (fun _ => true) "app"
        (.extPath "/opt/app/run") "run").2 = .raised ∧
      (pathExecute fsPathW (fun _ => true) "app"
        (.extPath "/opt/app/run") "run").1 (.binFile "run") =
          some (.fileE []) ∧
      readLines (pathExecute fsPathW (fun _ => true) "app"
          (.extPath "/opt/app/run") "run").1 (.logFile "app" "path") =
        readLines fsPathW (.logFile "app" "path")) ∧
    ((pathExecute fsPathW (fun _ => true) "app"
        (.extPath "/opt/app/run") "old").2 = .completed ∧
      (pathExecute fsPathW (fun _ => true) "app"
        (.extPath "/opt/app/run") "old").1 (.binFile "old") =
          some (.linkE (.extPath "/opt/app/run"))) :=
  ⟨(C10_path_destination_handling fsPathW (fun _ => true) "app" "run"
      (.extPath "/opt/app/run") [] (.fileE [])
      (.extPath "/x") rfl rfl).2 rfl (by intro z; simp),
   ⟨((C10_path_destination_handling fsPathW (fun _ => true) "app" "old"
      (.extPath "/opt/app/run") [] .dirE
      (.extPath "/opt/gone/run") rfl rfl).1 rfl).1,
    ((C10_path_destination_handling fsPathW (fun _ => true) "app" "old"
      (.extPath "/opt/app/run") [] .dirE
      (.extPath "/opt/gone/run") rfl rfl).1 rfl).2.1⟩⟩

/-! ## Bin-target auto-detection for archives
(opt.py installOrUpdate lines 255-278, fileutil.getAllSubFiles lines 36-40) -/

/-!
fileutil.getAllSubFiles walks a directory with os.walk and extends
the result with the filenames lists only: the names of the files at
every depth, WITHOUT their directory components.  leafNames/walkSubdirs
are the per-level filename collection and the recursive descent.
-/
mutual
def walkTree : FSTree → List String
  | .leaf _ => []
  | .node es => leafNames es ++ walkSubdirs es
def leafNames : List (String × FSTree) → List String
  | [] => []
  | (n, .leaf _) :: rest => n :: leafNames rest
  | (_, .node _) :: rest => leafNames rest
def walkSubdirs : List (String × FSTree) → List String
  | [] => []
  | (_, .leaf _) :: rest => walkSubdirs rest
  | (_, .node es) :: rest => walkTree (.node es) ++ walkSubdirs rest
end

/-!
The slash-joined relative paths of all files of a tree: where the files
actually sit on disk after extraction, for comparison with the
basenames getAllSubFiles returns.
-/
mutual
def relPathsTree : FSTree → List String
  | .leaf _ => []
  | .node es => relPathsEntries es
def relPathsEntries : List (String × FSTree) → List String
  | [] => []
  | (n, .leaf _) :: rest => n :: relPathsEntries rest
  | (n, .node es) :: rest =>
    (relPathsTree (.node es)).map (fun r => n ++ "/" ++ r)
      ++ relPathsEntries rest
end

/-- os.path.basename: the part after the last slash. -/
def basenameStr (f : String) : String :=
  String.mk ((f.data.reverse.takeWhile (fun ch => ch ≠ '/')).reverse)

/-- os.path.dirname: the part before the last slash, empty without one. -/
def dirnameStr (f : String) : String :=
  let rev := f.data.reverse
  if rev.any (fun ch => ch = '/') then
    String.mk (((rev.dropWhile (fun ch => ch ≠ '/')).drop 1).reverse)
  else ""

/-- str.startswith, spelled out on the character lists. -/
def charsStartWith : List Char → List Char → Bool
  | [], _ => true
  | _ :: _, [] => false
  | p :: ps, c :: cs => (p = c) && charsStartWith ps cs

def pyStartsWith (s pat : String) : Bool :=
  charsStartWith pat.data s.data

/-- The archive-candidate sort key of opt.py line 268: 1 when the
basename starts with the application name, else 100, plus ten times the
dirname length plus the basename length — an additive score, and the
enumerated candidates being bare basenames their dirname part is always
empty. -/
def archiveRankKey (appName f : String) : Nat :=
  (if pyStartsWith (basenameStr f) appName then 1 else 100)
    + (dirnameStr f).length * 10 + (basenameStr f).length

/-- list.sort(key=...) followed by taking element 0: python's sort is
stable, so the result is the first element attaining the minimal key. -/
def pickFirstMin (key : String → Nat) : List String → Option String
  | [] => none
  | f :: rest =>
    some (rest.foldl (fun best g => if key g < key best then g else best) f)

/-- InstallTask.getTargetFile (opt.py lines 188-192) with a
fileInArchive argument: os.path.join(appDir, fileInArchive), the
application directory being /opt/<name>. -/
def getTargetFile (appName fileInArchive : String) : String :=
  "/opt/" ++ appName ++ "/" ++ fileInArchive

/-- The archive branch of the auto-detection loop (opt.py lines
260-272): extract (the given tree), skip container directories,
enumerate with getAllSubFiles, sort by the rank key and take the first
candidate, and map it to the bin-symlink target with getTargetFile. -/
def autoDetectBinTarget (appName : String) (extracted : FSTree) :
    Option String :=
  match pickFirstMin (archiveRankKey appName)
      (walkTree (skipContainerDirs extracted)) with
  | none => none
  | some f => some (getTargetFile appName f)

theorem foldlMin_mem (key : String → Nat) (rest : List String) (f : String) :
    rest.foldl (fun best g => if key g < key best then g else best) f
      ∈ f :: rest := by
  induction rest generalizing f with
  | nil => simp
  | cons g rest ih =>
    simp only [List.foldl_cons]
    have h := ih (if key g < key f then g else f)
    by_cases hg : key g < key f <;> simp [hg] at h ⊢ <;> tauto

theorem foldlMin_le (key : String → Nat) (rest : List String) (f : String) :
    key (rest.foldl (fun best g => if key g < key best then g else best) f)
      ≤ key f ∧
    ∀ x ∈ rest,
      key (rest.foldl (fun best g => if key g < key best then g else best) f)
        ≤ key x := by
  induction rest generalizing f with
  | nil => simp
  | cons g rest ih =>
    simp only [List.foldl_cons]
    have h := ih (if key g < key f then g else f)
    by_cases hg : key g < key f
    · rw [if_pos hg] at h ⊢
      refine ⟨le_trans h.1 (le_of_lt hg), ?_⟩
      intro x hx
      rcases List.mem_cons.mp hx with rfl | hx
      · exact h.1
      · exact h.2 x hx
    · rw [if_neg hg] at h ⊢
      push_neg at hg
      refine ⟨h.1, ?_⟩
      intro x hx
      rcases List.mem_cons.mp hx with rfl | hx
      · exact le_trans h.1 hg
      · exact h.2 x hx

theorem pickFirstMin_spec (key : String → Nat) (l : List String)
    (c : String) (h : pickFirstMin key l = some c) :
    c ∈ l ∧ ∀ x ∈ l, key c ≤ key x := by
  cases l with
  | nil => cases h
  | cons f rest =>
    simp only [pickFirstMin, Option.some.injEq] at h
    subst h
    refine ⟨foldlMin_mem key rest f, ?_⟩
    intro x hx
    rcases List.mem_cons.mp hx with rfl | hx
    · exact (foldlMin_le key rest _).1
    · exact (foldlMin_le key rest f).2 x hx

/-- An archive with a top-level readme next to a subdirectory holding
the executable: two top-level entries, so no container is skipped. -/
def exTree9 : FSTree :=
  .node [("readme.txt", .leaf "r"),
    ("sub", .node [("app-run", .leaf "x")])]

/-- C9 counterexample: for this archive the auto-detection chooses the
candidate "app-run" — a bare basename, since getAllSubFiles collects
os.walk filenames without their directories — and maps it to
/opt/app/app-run, but the file's in-archive relative path is
sub/app-run and its on-disk location is /opt/app/sub/app-run: the
claimed mapping of the chosen file's relative path INCLUDING its
directory components back to its final on-disk location does not
happen. -/
theorem C9_directory_components_counterexample :
    autoDetectBinTarget "app" exTree9 = some "/opt/app/app-run" ∧
    relPathsTree exTree9 = ["readme.txt", "sub/app-run"] ∧
    "/opt/app/app-run" ∉
      (relPathsTree exTree9).map (fun r => "/opt/app/" ++ r) := by
  refine ⟨by decide, rfl, by decide⟩

/-- C9 (amended): when the best-ranked input file is an archive, it is
extracted to a scratch directory, container directories are skipped,
and all contained files are enumerated by BASENAME only (os.walk
filenames; directory components are discarded); the candidates are
ranked by the additive score (1 if the basename starts with the
application name, else 100) + 10 * dirname length + basename length —
the dirname part being empty for the enumerated basenames — and the
first candidate with minimal score is joined directly under appDir as
the bin-symlink target, which for a file nested in a subdirectory need
not be its final on-disk location. -/
theorem C9_archive_autodetect (appName : String) (tree : FSTree)
    (c : String)
    (h : pickFirstMin (archiveRankKey appName)
        (walkTree (skipContainerDirs tree)) = some c) :
    c ∈ walkTree (skipContainerDirs tree) ∧
    (∀ g ∈ walkTree (skipContainerDirs tree),
      archiveRankKey appName c ≤ archiveRankKey appName g) ∧
    autoDetectBinTarget appName tree =
      some ("/opt/" ++ appName ++ "/" ++ c) := by
  obtain ⟨hmem, hmin⟩ := pickFirstMin_spec _ _ _ h
  refine ⟨hmem, hmin, ?_⟩
  simp [autoDetectBinTarget, h, getTargetFile]

/-- C9 witness: the auto-detection theorem applied to the concrete
archive, whose chosen candidate is app-run. -/
theorem C9_archive_autodetect_witness :
    "app-run" ∈ walkTree (skipContainerDirs exTree9) ∧
    (∀ g ∈ walkTree (skipContainerDirs exTree9),
      archiveRankKey "app" "app-run" ≤ archiveRankKey "app" g) ∧
    autoDetectBinTarget "app" exTree9 =
      some ("/opt/" ++ "app" ++ "/" ++ "app-run") :=
  C9_archive_autodetect "app" exTree9 "app-run" (by decide)
